import Mathlib

/-!
# qrcode command-line tool: embedding of `main.go`

The program is one Go file: `parseQuality` (a pure string-to-level mapping) and
`main` (flag handling, default derivation, one call to the external
`qrcode.WriteFile`, exit-code mapping).

Modelling decisions.

* A Go `string` is modelled as the list of its runes (`List Char`); flag values are
  taken to be valid UTF-8, which is what the Go runtime assumes for text.
* `strings.TrimSpace`, `strings.ToLower`, `unicode.IsSpace`, `unicode.ToLower` and
  `time.Time.Format` belong to the Go standard library.  They are transcribed here
  from their documented behaviour.  The Unicode case table used by `unicode.ToLower`
  for runes above ASCII is not reproduced: it enters as the parameter `lowerTable`.
* `qrcode.WriteFile` is the external encoder.  It enters as a parameter of the
  environment, and one call of it returns `nil`, returns an error, or panics.
* The other calls `main` makes go to the Go standard library (clock, flag package,
  logger, string functions) on arguments fixed by the program text; they return
  normally.  The encoder is therefore the one place of a run where a runtime fault
  can arise, and it is called after the deferred `recover` of line 67 is in place.
* The model of `main` starts once `flag.Parse` has accepted the command line:
  a flag is either absent (`none`, its default applies) or present with a value.
-/

namespace QRCode

/-! ## Strings -/

/-- A Go string, as the sequence of its runes. -/
abbrev GoString := List Char

/-- Go `unicode.IsSpace`: in Latin-1 the runes `\t \n \v \f \r`, space, U+0085 and
U+00A0; above Latin-1 the `White_Space` table (U+1680, U+2000..U+200A, U+2028,
U+2029, U+202F, U+205F, U+3000). -/
def isSpace (r : Char) : Bool :=
  let n := r.toNat
  if n ≤ 0xFF then
    n = 0x09 || n = 0x0A || n = 0x0B || n = 0x0C || n = 0x0D || n = 0x20
      || n = 0x85 || n = 0xA0
  else
    n = 0x1680 || (0x2000 ≤ n && n ≤ 0x200A) || n = 0x2028 || n = 0x2029
      || n = 0x202F || n = 0x205F || n = 0x3000

/-- Go `strings.TrimSpace`: `TrimRightFunc (TrimLeftFunc s IsSpace) IsSpace`
(the ASCII fast path of the library computes the same slice). -/
def trimSpace (s : GoString) : GoString :=
  List.rdropWhile isSpace (List.dropWhile isSpace s)

/-- Go `unicode.ToLower`: for `r ≤ MaxASCII` the letters `A..Z` are shifted by
`'a' - 'A'` and every other rune is returned as is; above ASCII the case table
`lowerTable` decides. -/
def toLowerRune (lowerTable : Char → Char) (r : Char) : Char :=
  if r.toNat ≤ 0x7F then
    if 'A'.toNat ≤ r.toNat ∧ r.toNat ≤ 'Z'.toNat then Char.ofNat (r.toNat + 32) else r
  else lowerTable r

/-- Go `strings.ToLower`: `unicode.ToLower` mapped over the runes. -/
def toLower (lowerTable : Char → Char) (s : GoString) : GoString :=
  s.map (toLowerRune lowerTable)

/-- Length of the UTF-8 encoding, Go `len(s)`. -/
def byteLen (s : GoString) : Nat :=
  (s.map Char.utf8Size).sum

/-! ## `parseQuality` -/

/-- The constants `qrcode.Low`, `qrcode.Medium`, `qrcode.High`, `qrcode.Highest`
of the external library. -/
inductive RecoveryLevel where
  | Low
  | Medium
  | High
  | Highest
  deriving DecidableEq

/-- `parseQuality` of `main.go`, lines 15-29: a `switch` over
`strings.ToLower(strings.TrimSpace(q))`. -/
def parseQuality (lowerTable : Char → Char) (q : GoString) : RecoveryLevel :=
  let s := toLower lowerTable (trimSpace q)
  if s = "low".toList then RecoveryLevel.Low
  else if s = "medium".toList ∨ s = "med".toList then RecoveryLevel.Medium
  else if s = "high".toList then RecoveryLevel.High
  else if s = "highest".toList ∨ s = "max".toList ∨ s = "ultra".toList then
    RecoveryLevel.Highest
  else
    -- fallback to Highest if unknown
    RecoveryLevel.Highest

/-! ## `time.Now().Format("2006-01-02_150405Z07")` -/

/-- A clock reading as `time.Time.Format` sees it: the civil date and time of day
in the reading's location and that location's offset in seconds east of UTC. -/
structure Time where
  year : Int
  month : Nat
  day : Nat
  hour : Nat
  minute : Nat
  second : Nat
  offset : Int
  deriving DecidableEq

/-- The decimal digit `d` as a rune (`'0' + d`). -/
def digitChar (d : Nat) : Char := Char.ofNat ('0'.toNat + d)

/-- Go `time.appendInt`: a minus sign for a negative `x`, then the decimal digits of
`|x|`, zero-padded on the left to `width`.  The two-digit and four-digit cases are
the fast paths of the library. -/
def appendInt (x : Int) (width : Nat) : GoString :=
  let u := x.natAbs
  let sign : GoString := if x < 0 then ['-'] else []
  if width = 2 ∧ u < 100 then
    sign ++ [digitChar (u / 10), digitChar (u % 10)]
  else if width = 4 ∧ u < 10000 then
    sign ++ [digitChar (u / 1000), digitChar (u / 100 % 10), digitChar (u / 10 % 10),
      digitChar (u % 10)]
  else
    let ds := Nat.toDigits 10 u
    sign ++ List.replicate (width - ds.length) '0' ++ ds

/-- The pieces `time.Format` splits the layout `"2006-01-02_150405Z07"` into. -/
inductive Chunk where
  | literal (c : Char)
  | stdLongYear
  | stdZeroMonth
  | stdZeroDay
  | stdHour
  | stdZeroMinute
  | stdZeroSecond
  | stdISO8601ShortTZ
  deriving DecidableEq

/-- The layout `"2006-01-02_150405Z07"` of `main.go` (lines 34 and 62), chunked as
`time.nextStdChunk` does: `2006`, `-`, `01`, `-`, `02`, `_`, `15`, `04`, `05`,
`Z07`. -/
def layoutChunks : List Chunk :=
  [Chunk.stdLongYear, Chunk.literal '-', Chunk.stdZeroMonth, Chunk.literal '-',
   Chunk.stdZeroDay, Chunk.literal '_', Chunk.stdHour, Chunk.stdZeroMinute,
   Chunk.stdZeroSecond, Chunk.stdISO8601ShortTZ]

/-- The zone token of the layout element `Z07`: `Z` when the offset is zero,
otherwise the sign and the two-digit hours of the offset (the minutes are not
printed by the short form). Go integer division truncates toward zero. -/
def formatZone (offset : Int) : GoString :=
  if offset = 0 then ['Z']
  else
    let zone := offset.tdiv 60
    if zone < 0 then '-' :: appendInt ((-zone).tdiv 60) 2
    else '+' :: appendInt (zone.tdiv 60) 2

/-- The text one chunk contributes. -/
def formatChunk (t : Time) : Chunk → GoString
  | Chunk.literal c => [c]
  | Chunk.stdLongYear => appendInt t.year 4
  | Chunk.stdZeroMonth => appendInt t.month 2
  | Chunk.stdZeroDay => appendInt t.day 2
  | Chunk.stdHour => appendInt t.hour 2
  | Chunk.stdZeroMinute => appendInt t.minute 2
  | Chunk.stdZeroSecond => appendInt t.second 2
  | Chunk.stdISO8601ShortTZ => formatZone t.offset

/-- `t.Format("2006-01-02_150405Z07")`. -/
def timeFormat (t : Time) : GoString :=
  layoutChunks.foldr (fun c acc => formatChunk t c ++ acc) []

/-- The expression `time.Now().Format("2006-01-02_150405Z07") + ".png"`. -/
def defaultOutputAt (t : Time) : GoString :=
  timeFormat t ++ ".png".toList

/-! ## `main` -/

/-- `defaultQuality := "highest"`. -/
def defaultQuality : GoString := "highest".toList

/-- `defaultSize := 1024`. -/
def defaultSize : Int := 1024

/-- The command line after `flag.Parse`: each flag absent or given with a value. -/
structure Flags where
  quality : Option GoString
  content : Option GoString
  output : Option GoString
  size : Option Int

/-- How one call of `qrcode.WriteFile` ends: it returns `nil`, it returns an error,
or it raises a runtime fault (a Go `panic`) with some value. -/
inductive WriteResult where
  | ok
  | failed (err : GoString)
  | panicked (value : GoString)
  deriving DecidableEq

/-- What surrounds one run: the Unicode case table, the two clock readings (line 34
and line 62) and the external encoder. -/
structure Env where
  lowerTable : Char → Char
  clockStart : Time
  clockResolve : Time
  writeFile : GoString → RecoveryLevel → Int → GoString → WriteResult

/-- One invocation of `qrcode.WriteFile(content, quality, size, output)`. -/
structure WriteCall where
  content : GoString
  level : RecoveryLevel
  size : Int
  path : GoString
  deriving DecidableEq

/-- What a run emits besides the image file. -/
inductive Event where
  | errMissingContent
  | usageText
  | infoStart (quality : GoString) (contentLen : Nat) (output : GoString) (size : Int)
  | errWrite (err : GoString)
  | infoDone (output : GoString) (content : GoString)
  | errPanicRecovered (value : GoString)
  deriving DecidableEq

/-- The observable result of a run: process exit status, emitted events, and the
invocations of the external encoder. -/
structure Run where
  exit : Nat
  events : List Event
  calls : List WriteCall
  deriving DecidableEq

/-- `main` of `main.go`, lines 31-83. -/
def main (env : Env) (flags : Flags) : Run :=
  -- line 34
  let defaultOutput := defaultOutputAt env.clockStart
  -- lines 38-48
  let qualityFlag := flags.quality.getD defaultQuality
  let contentFlag := flags.content.getD []
  let outputFlag := flags.output.getD defaultOutput
  let sizeFlag := flags.size.getD defaultSize
  -- lines 51-56
  let content := trimSpace contentFlag
  if content = [] then
    Run.mk 2 [Event.errMissingContent, Event.usageText] []
  else
  -- lines 59-64
  let quality := parseQuality env.lowerTable qualityFlag
  let output := trimSpace outputFlag
  let output := if output = [] then defaultOutputAt env.clockResolve else output
  let size := sizeFlag
  -- line 74
  let started := [Event.infoStart qualityFlag (byteLen content) output size]
  -- line 77
  let call := WriteCall.mk content quality size output
  match env.writeFile content quality size output with
  | WriteResult.panicked value =>
    -- lines 67-72: the deferred function recovers the panic, logs it, and exits 1
    Run.mk 1 (started ++ [Event.errPanicRecovered value]) [call]
  | WriteResult.failed err =>
    -- lines 78-79
    Run.mk 1 (started ++ [Event.errWrite err]) [call]
  | WriteResult.ok =>
    -- line 82
    Run.mk 0 (started ++ [Event.infoDone output content]) [call]

/-! ## Vocabulary of the claims about `parseQuality` -/

/-- The seven keywords `parseQuality` names in its `case` clauses. -/
def keywords : List GoString :=
  ["low".toList, "medium".toList, "med".toList, "high".toList, "highest".toList,
   "max".toList, "ultra".toList]

/-- An ASCII lower-case letter `a..z`. -/
def isAsciiLower (c : Char) : Bool := 'a'.toNat ≤ c.toNat && c.toNat ≤ 'z'.toNat

/-- An ASCII upper-case letter `A..Z`. -/
def isAsciiUpper (c : Char) : Bool := 'A'.toNat ≤ c.toNat && c.toNat ≤ 'Z'.toNat

/-- The same ASCII letter in the other case; any other rune unchanged. -/
def swapCase (c : Char) : Char :=
  if isAsciiLower c then Char.ofNat (c.toNat - 32)
  else if isAsciiUpper c then Char.ofNat (c.toNat + 32)
  else c

/-- The string `s` is `k` with the case of some of its ASCII letters changed. -/
def CaseVariant (k s : GoString) : Prop :=
  List.Forall₂ (fun a b => b = a ∨ b = swapCase a) k s

/-- Every rune of `s` is white space. -/
abbrev AllSpace (s : GoString) : Prop := ∀ c ∈ s, isSpace c = true

/-- The output path `main` settles on (lines 60-63): the trimmed `-output` value, or
a fresh timestamped name when that is empty. -/
def resolvedOutput (env : Env) (flags : Flags) : GoString :=
  let output := trimSpace (flags.output.getD (defaultOutputAt env.clockStart))
  if output = [] then defaultOutputAt env.clockResolve else output

/-- The arguments `main` hands to `qrcode.WriteFile` on line 77. -/
def writeCallOf (env : Env) (flags : Flags) : WriteCall :=
  WriteCall.mk (trimSpace (flags.content.getD []))
    (parseQuality env.lowerTable (flags.quality.getD defaultQuality))
    (flags.size.getD defaultSize) (resolvedOutput env flags)

/-! ## Sample environments -/

/-- A sample reading: 2024-01-02 15:04:05 at UTC. -/
def sampleUTC : Time := Time.mk 2024 1 2 15 4 5 0

/-- A sample reading: 2024-01-02 15:04:05 at UTC+05:30. -/
def sampleIST : Time := Time.mk 2024 1 2 15 4 5 19800

/-- An environment whose encoder always succeeds. -/
def quietEnv : Env :=
  Env.mk id sampleUTC sampleIST (fun _ _ _ _ => WriteResult.ok)

/-- An environment whose encoder panics when asked for an image of
9223372036854775807 pixels (the largest Go `int`) and succeeds otherwise. -/
def hugeSizePanicEnv : Env :=
  Env.mk id sampleUTC sampleIST
    (fun _ _ size _ =>
      if size = 9223372036854775807 then WriteResult.panicked "len out of range".toList
      else WriteResult.ok)

/-! ## Shapes of the default file name -/

/-- One position of a file-name pattern: a decimal digit, a sign, or a fixed rune. -/
inductive Slot where
  | digit
  | sign
  | lit (c : Char)

/-- A decimal digit `0..9`. -/
def isDigit (c : Char) : Bool := '0'.toNat ≤ c.toNat && c.toNat ≤ '9'.toNat

/-- Whether a rune fits a position. -/
def slotOk : Slot → Char → Bool
  | Slot.digit, c => isDigit c
  | Slot.sign, c => c == '+' || c == '-'
  | Slot.lit a, c => c == a

/-- Whether a string fits a pattern, position by position and in full. -/
def matchesSlots : List Slot → GoString → Bool
  | [], [] => true
  | sl :: sls, c :: cs => slotOk sl c && matchesSlots sls cs
  | _, _ => false

/-- The pattern `YYYY-MM-DD_HHMMSS`. -/
def stampSlots : List Slot :=
  [Slot.digit, Slot.digit, Slot.digit, Slot.digit, Slot.lit '-', Slot.digit, Slot.digit,
   Slot.lit '-', Slot.digit, Slot.digit, Slot.lit '_', Slot.digit, Slot.digit, Slot.digit,
   Slot.digit, Slot.digit, Slot.digit]

/-- The pattern `.png`. -/
def pngSlots : List Slot := [Slot.lit '.', Slot.lit 'p', Slot.lit 'n', Slot.lit 'g']

/-- The form the specification gives for the default name:
`YYYY-MM-DD_HHMMSS±ZZZZ.png`. -/
def specFormSlots : List Slot :=
  stampSlots ++ [Slot.sign, Slot.digit, Slot.digit, Slot.digit, Slot.digit] ++ pngSlots

/-- The form `YYYY-MM-DD_HHMMSSZ.png`. -/
def utcFormSlots : List Slot := stampSlots ++ [Slot.lit 'Z'] ++ pngSlots

/-- The form `YYYY-MM-DD_HHMMSS±hh.png`. -/
def hoursFormSlots : List Slot := stampSlots ++ [Slot.sign, Slot.digit, Slot.digit] ++ pngSlots

/-- A civil clock reading: a year of four digits, a calendar month and day, a time
of day, and an offset of less than a day. -/
def ValidReading (t : Time) : Prop :=
  0 ≤ t.year ∧ t.year ≤ 9999 ∧ 1 ≤ t.month ∧ t.month ≤ 12 ∧ 1 ≤ t.day ∧ t.day ≤ 31
    ∧ t.hour ≤ 23 ∧ t.minute ≤ 59 ∧ t.second ≤ 59
    ∧ -86400 < t.offset ∧ t.offset < 86400

instance (t : Time) : Decidable (ValidReading t) := by
  unfold ValidReading
  infer_instance

/-! ## Facts about trimming -/

theorem dropWhile_isSpace_append_left (pre s : GoString) (hpre : ∀ c ∈ pre, isSpace c = true) :
    List.dropWhile isSpace (pre ++ s) = List.dropWhile isSpace s := by
  induction pre with
  | nil => rfl
  | cons a pre ih =>
    have ha : isSpace a = true := hpre a (List.mem_cons_self a pre)
    have hrest : ∀ c ∈ pre, isSpace c = true := fun c hc => hpre c (List.mem_cons_of_mem a hc)
    simp [List.dropWhile_cons, ha, ih hrest]

theorem rdropWhile_isSpace_append_right (s post : GoString)
    (hpost : ∀ c ∈ post, isSpace c = true) :
    List.rdropWhile isSpace (s ++ post) = List.rdropWhile isSpace s := by
  induction post using List.reverseRecOn with
  | nil => simp
  | append_singleton post a ih =>
    have ha : isSpace a = true := hpost a (by simp)
    have hrest : ∀ c ∈ post, isSpace c = true := fun c hc => hpost c (by simp [hc])
    rw [← List.append_assoc, List.rdropWhile_concat_pos _ _ _ ha, ih hrest]

theorem dropWhile_isSpace_append_right (s post : GoString)
    (hs : ∃ c ∈ s, isSpace c = false) :
    List.dropWhile isSpace (s ++ post) = List.dropWhile isSpace s ++ post := by
  induction s with
  | nil => simp at hs
  | cons a s ih =>
    by_cases ha : isSpace a = true
    · have hs2 : ∃ c ∈ s, isSpace c = false := by
        obtain ⟨c, hc, hcs⟩ := hs
        rcases List.mem_cons.mp hc with rfl | hc
        · simp [ha] at hcs
        · exact ⟨c, hc, hcs⟩
      simp [List.dropWhile_cons, ha, ih hs2]
    · simp [List.dropWhile_cons, ha]

theorem trimSpace_eq_nil_iff (s : GoString) :
    trimSpace s = [] ↔ ∀ c ∈ s, isSpace c = true := by
  unfold trimSpace
  rw [List.rdropWhile_eq_nil_iff]
  constructor
  · intro h
    have hnil : List.dropWhile isSpace s = [] := by
      by_contra hne
      have hpos : 0 < (List.dropWhile isSpace s).length := List.length_pos.mpr hne
      have h1 := List.dropWhile_get_zero_not isSpace s hpos
      exact h1 (h _ (List.get_mem _ _ _))
    exact List.dropWhile_eq_nil_iff.mp hnil
  · intro h
    rw [List.dropWhile_eq_nil_iff.mpr h]
    simp

theorem trimSpace_pad (pre s post : GoString) (hpre : ∀ c ∈ pre, isSpace c = true)
    (hpost : ∀ c ∈ post, isSpace c = true) :
    trimSpace (pre ++ s ++ post) = trimSpace s := by
  unfold trimSpace
  rw [List.append_assoc, dropWhile_isSpace_append_left pre _ hpre]
  by_cases hs : ∃ c ∈ s, isSpace c = false
  · rw [dropWhile_isSpace_append_right s post hs, rdropWhile_isSpace_append_right _ _ hpost]
  · have hall : ∀ c ∈ s, isSpace c = true := by
      intro c hc
      by_contra hc2
      exact hs ⟨c, hc, by simpa using hc2⟩
    rw [dropWhile_isSpace_append_left s post hall, List.dropWhile_eq_nil_iff.mpr hall,
      List.dropWhile_eq_nil_iff.mpr hpost]

theorem rdropWhile_head_eq (p : Char → Bool) (l : GoString) (h : List.rdropWhile p l ≠ []) :
    (List.rdropWhile p l).head? = l.head? := by
  induction l using List.reverseRecOn with
  | nil => simp at h
  | append_singleton l a ih =>
    by_cases ha : p a = true
    · rw [List.rdropWhile_concat_pos _ _ _ ha] at h ⊢
      rw [ih h]
      cases l with
      | nil => simp at h
      | cons b l => simp
    · rw [List.rdropWhile_concat_neg _ _ _ ha]

theorem trimSpace_head_not_space (s : GoString) (c : Char)
    (h : (trimSpace s).head? = some c) : isSpace c = false := by
  unfold trimSpace at h
  have hne : List.rdropWhile isSpace (List.dropWhile isSpace s) ≠ [] := by
    intro h0; rw [h0] at h; simp at h
  rw [rdropWhile_head_eq _ _ hne] at h
  have := List.head?_dropWhile_not isSpace s
  rw [h] at this
  simpa using this

theorem trimSpace_last_not_space (s : GoString) (c : Char)
    (h : (trimSpace s).getLast? = some c) : isSpace c = false := by
  unfold trimSpace at h
  have hne : List.rdropWhile isSpace (List.dropWhile isSpace s) ≠ [] := by
    intro h0; rw [h0] at h; simp at h
  have h1 := List.rdropWhile_last_not isSpace (List.dropWhile isSpace s) hne
  rw [List.getLast?_eq_getLast _ hne] at h
  have h2 : (List.rdropWhile isSpace (List.dropWhile isSpace s)).getLast hne = c := by
    simpa using h
  rw [h2] at h1
  simpa using h1

/-! ## Facts about case -/

theorem lower_letter_facts (lowerTable : Char → Char) (n : Nat) (h1 : 97 ≤ n) (h2 : n ≤ 122) :
    toLowerRune lowerTable (Char.ofNat n) = Char.ofNat n
      ∧ toLowerRune lowerTable (swapCase (Char.ofNat n)) = Char.ofNat n
      ∧ isSpace (Char.ofNat n) = false
      ∧ isSpace (swapCase (Char.ofNat n)) = false := by
  interval_cases n <;> exact ⟨rfl, rfl, rfl, rfl⟩

theorem caseVariant_rune (lowerTable : Char → Char) (a b : Char) (ha : isAsciiLower a = true)
    (hb : b = a ∨ b = swapCase a) :
    toLowerRune lowerTable b = a ∧ isSpace b = false := by
  have hn : 97 ≤ a.toNat ∧ a.toNat ≤ 122 := by
    simpa [isAsciiLower] using ha
  have hf := lower_letter_facts lowerTable a.toNat hn.1 hn.2
  rw [Char.ofNat_toNat] at hf
  rcases hb with rfl | rfl
  · exact ⟨hf.1, hf.2.2.1⟩
  · exact ⟨hf.2.1, hf.2.2.2⟩

theorem caseVariant_toLower (lowerTable : Char → Char) (k s : GoString)
    (hk : ∀ a ∈ k, isAsciiLower a = true) (h : CaseVariant k s) :
    toLower lowerTable s = k ∧ ∀ c ∈ s, isSpace c = false := by
  unfold CaseVariant at h
  induction h with
  | nil => exact ⟨rfl, by simp⟩
  | @cons a b k s hab _ ih =>
    have ha := hk a (List.mem_cons_self a k)
    have hr := caseVariant_rune lowerTable a b ha hab
    have ih2 := ih (fun c hc => hk c (List.mem_cons_of_mem a hc))
    refine ⟨?_, ?_⟩
    · have := ih2.1
      unfold toLower at this ⊢
      simp [List.map_cons, hr.1, this]
    · intro c hc
      rcases List.mem_cons.mp hc with rfl | hc
      · exact hr.2
      · exact ih2.2 c hc

theorem trimSpace_of_no_space (s : GoString) (h : ∀ c ∈ s, isSpace c = false) :
    trimSpace s = s := by
  unfold trimSpace
  have h1 : List.dropWhile isSpace s = s := by
    cases s with
    | nil => rfl
    | cons a s => simp [List.dropWhile_cons, h a (List.mem_cons_self a s)]
  rw [h1]
  induction s using List.reverseRecOn with
  | nil => simp
  | append_singleton s a _ =>
    have ha : isSpace a = false := h a (by simp)
    exact List.rdropWhile_concat_neg _ _ _ (by simp [ha])

theorem keywords_lower (k : GoString) (hk : k ∈ keywords) : ∀ a ∈ k, isAsciiLower a = true := by
  simp only [keywords, List.mem_cons, List.mem_singleton, List.not_mem_nil, or_false] at hk
  rcases hk with rfl | rfl | rfl | rfl | rfl | rfl | rfl <;> decide

theorem caseVariant_refl (k : GoString) : CaseVariant k k := by
  unfold CaseVariant
  induction k with
  | nil => exact List.Forall₂.nil
  | cons a k ih => exact List.Forall₂.cons (Or.inl rfl) ih

/-! ## Claims about `parseQuality` -/

/-- C1: with `s` the trimmed, lower-cased quality string, `parseQuality` returns `Low`
for `"low"`, `Medium` for `"medium"` and `"med"`, `High` for `"high"`, and `Highest`
for `"highest"`, `"max"` and `"ultra"`. -/
theorem parseQuality_table (lowerTable : Char → Char) (q : GoString) :
    (toLower lowerTable (trimSpace q) = "low".toList →
        parseQuality lowerTable q = RecoveryLevel.Low)
    ∧ (toLower lowerTable (trimSpace q) = "medium".toList
        ∨ toLower lowerTable (trimSpace q) = "med".toList →
        parseQuality lowerTable q = RecoveryLevel.Medium)
    ∧ (toLower lowerTable (trimSpace q) = "high".toList →
        parseQuality lowerTable q = RecoveryLevel.High)
    ∧ (toLower lowerTable (trimSpace q) = "highest".toList
        ∨ toLower lowerTable (trimSpace q) = "max".toList
        ∨ toLower lowerTable (trimSpace q) = "ultra".toList →
        parseQuality lowerTable q = RecoveryLevel.Highest) := by
  refine ⟨?_, ?_, ?_, ?_⟩
  · intro h
    simp [parseQuality, h]
  · intro h
    rcases h with h | h <;> rw [parseQuality, h] <;> decide
  · intro h
    rw [parseQuality, h]; decide
  · intro h
    rcases h with h | h | h <;> rw [parseQuality, h] <;> decide

/-- C1, at concrete inputs: `"  LoW\t"`, `"MED"`, `" Medium "`, `"HIGH\n"`, `"Max"`,
`"ULTRA"` and `"highest"`. -/
theorem parseQuality_table_witness :
    parseQuality id "  LoW\t".toList = RecoveryLevel.Low
    ∧ parseQuality id "MED".toList = RecoveryLevel.Medium
    ∧ parseQuality id " Medium ".toList = RecoveryLevel.Medium
    ∧ parseQuality id "HIGH\n".toList = RecoveryLevel.High
    ∧ parseQuality id "Max".toList = RecoveryLevel.Highest
    ∧ parseQuality id "ULTRA".toList = RecoveryLevel.Highest
    ∧ parseQuality id "highest".toList = RecoveryLevel.Highest :=
  ⟨(parseQuality_table id "  LoW\t".toList).1 (by decide),
   (parseQuality_table id "MED".toList).2.1 (Or.inr (by decide)),
   (parseQuality_table id " Medium ".toList).2.1 (Or.inl (by decide)),
   (parseQuality_table id "HIGH\n".toList).2.2.1 (by decide),
   (parseQuality_table id "Max".toList).2.2.2 (Or.inr (Or.inl (by decide))),
   (parseQuality_table id "ULTRA".toList).2.2.2 (Or.inr (Or.inr (by decide))),
   (parseQuality_table id "highest".toList).2.2.2 (Or.inl (by decide))⟩

/-- C2: when the trimmed, lower-cased quality string is none of `"low"`, `"medium"`,
`"med"`, `"high"`, the result is `Highest`; so a result other than `Highest` occurs
only for those four keywords.  The empty string, every all-white-space string and
`"l ow"` are among the inputs mapped to `Highest`.  `parseQuality` is a total
function. -/
theorem parseQuality_fallback (lowerTable : Char → Char) (q : GoString) :
    (toLower lowerTable (trimSpace q) ≠ "low".toList
        ∧ toLower lowerTable (trimSpace q) ≠ "medium".toList
        ∧ toLower lowerTable (trimSpace q) ≠ "med".toList
        ∧ toLower lowerTable (trimSpace q) ≠ "high".toList →
        parseQuality lowerTable q = RecoveryLevel.Highest)
    ∧ (parseQuality lowerTable q ≠ RecoveryLevel.Highest →
        toLower lowerTable (trimSpace q) = "low".toList
        ∨ toLower lowerTable (trimSpace q) = "medium".toList
        ∨ toLower lowerTable (trimSpace q) = "med".toList
        ∨ toLower lowerTable (trimSpace q) = "high".toList)
    ∧ (AllSpace q → parseQuality lowerTable q = RecoveryLevel.Highest)
    ∧ parseQuality lowerTable [] = RecoveryLevel.Highest
    ∧ parseQuality lowerTable "l ow".toList = RecoveryLevel.Highest := by
  have key : toLower lowerTable (trimSpace q) ≠ "low".toList
        ∧ toLower lowerTable (trimSpace q) ≠ "medium".toList
        ∧ toLower lowerTable (trimSpace q) ≠ "med".toList
        ∧ toLower lowerTable (trimSpace q) ≠ "high".toList →
        parseQuality lowerTable q = RecoveryLevel.Highest := by
    rintro ⟨h1, h2, h3, h4⟩
    unfold parseQuality
    rw [if_neg h1, if_neg (not_or.mpr ⟨h2, h3⟩), if_neg h4]
    split <;> rfl
  refine ⟨key, ?_, ?_, rfl, rfl⟩
  · intro hne
    by_contra hcon
    push_neg at hcon
    exact hne (key hcon)
  · intro hq
    have ht : trimSpace q = [] := (trimSpace_eq_nil_iff q).mpr hq
    rw [parseQuality, ht]
    rfl

/-- C2, at concrete inputs: `"bogus"`, `"lowest"` and three blanks fall back to
`Highest`. -/
theorem parseQuality_fallback_witness :
    parseQuality id "bogus".toList = RecoveryLevel.Highest
    ∧ parseQuality id "lowest".toList = RecoveryLevel.Highest
    ∧ parseQuality id "   ".toList = RecoveryLevel.Highest :=
  ⟨(parseQuality_fallback id "bogus".toList).1 (by decide),
   (parseQuality_fallback id "lowest".toList).1 (by decide),
   (parseQuality_fallback id "   ".toList).2.2.1 (by decide)⟩

/-- C3: for each of the seven keywords `k`, a string made from `k` by changing the
case of any of its letters and putting any white space before and after it is mapped
to the level of `k`. -/
theorem parseQuality_case_space_insensitive (lowerTable : Char → Char)
    (k s pre post : GoString) (hk : k ∈ keywords) (hs : CaseVariant k s)
    (hpre : AllSpace pre) (hpost : AllSpace post) :
    parseQuality lowerTable (pre ++ s ++ post) = parseQuality lowerTable k := by
  have hlow := keywords_lower k hk
  have h1 := caseVariant_toLower lowerTable k s hlow hs
  have h2 := caseVariant_toLower lowerTable k k hlow (caseVariant_refl k)
  have e1 : toLower lowerTable (trimSpace (pre ++ s ++ post)) = k := by
    rw [trimSpace_pad pre s post hpre hpost, trimSpace_of_no_space s h1.2, h1.1]
  have e2 : toLower lowerTable (trimSpace k) = k := by
    rw [trimSpace_of_no_space k h2.2, h2.1]
  unfold parseQuality
  rw [e1, e2]

/-- C3, at a concrete input: `"\t MeDiUm \n"` is mapped like `"medium"`, to
`Medium`. -/
theorem parseQuality_case_space_insensitive_witness :
    parseQuality id ("\t ".toList ++ "MeDiUm".toList ++ " \n".toList)
        = parseQuality id "medium".toList
    ∧ parseQuality id "medium".toList = RecoveryLevel.Medium :=
  ⟨parseQuality_case_space_insensitive id "medium".toList "MeDiUm".toList "\t ".toList
      " \n".toList (by decide)
      (List.Forall₂.cons (Or.inr (by decide)) (List.Forall₂.cons (Or.inl rfl)
        (List.Forall₂.cons (Or.inr (by decide)) (List.Forall₂.cons (Or.inl rfl)
          (List.Forall₂.cons (Or.inr (by decide)) (List.Forall₂.cons (Or.inl rfl)
            List.Forall₂.nil))))))
      (by decide) (by decide),
   by decide⟩

/-! ## Facts about the time layout -/

theorem isDigit_digitChar (d : Nat) (h : d < 10) : isDigit (digitChar d) = true := by
  interval_cases d <;> rfl

theorem appendInt_two (n : Nat) (h : n < 100) :
    appendInt (n : Int) 2 = [digitChar (n / 10), digitChar (n % 10)] := by
  unfold appendInt
  have hneg : ¬ ((n : Int) < 0) := by omega
  simp [h, hneg]

theorem appendInt_four (y : Int) (h0 : 0 ≤ y) (h1 : y ≤ 9999) :
    appendInt y 4 = [digitChar (y.natAbs / 1000), digitChar (y.natAbs / 100 % 10),
      digitChar (y.natAbs / 10 % 10), digitChar (y.natAbs % 10)] := by
  unfold appendInt
  have hneg : ¬ (y < 0) := by omega
  have hu : y.natAbs < 10000 := by omega
  simp [hneg, hu]

theorem formatZone_nonzero (o : Int) (h0 : o ≠ 0) (h1 : -360000 < o) (h2 : o < 360000) :
    formatZone o = [if o ≤ -60 then '-' else '+', digitChar (o.natAbs / 3600 / 10),
      digitChar (o.natAbs / 3600 % 10)] := by
  have e1 : ∀ m : Nat, (m : Int).tdiv 60 = ((m / 60 : Nat) : Int) :=
    fun m => (Int.ofNat_tdiv m 60).symm
  unfold formatZone
  rw [if_neg h0]
  rcases Int.eq_nat_or_neg o with ⟨n, rfl | rfl⟩
  · have hn : n / 60 / 60 < 100 := by omega
    have hz : ¬ (((n / 60 : Nat) : Int) < 0) := by omega
    have hle : ¬ ((n : Int) ≤ -60) := by omega
    have hh : n / 60 / 60 = n / 3600 := by omega
    simp only [e1]
    rw [if_neg hz, appendInt_two _ hn, if_neg hle, Int.natAbs_ofNat, hh]
  · have hn : n / 60 / 60 < 100 := by omega
    have hh : n / 60 / 60 = n / 3600 := by omega
    simp only [Int.neg_tdiv, e1, Int.natAbs_neg, Int.natAbs_ofNat, neg_neg]
    by_cases hbig : 60 ≤ n
    · have hz : (-((n / 60 : Nat) : Int) < 0) := by
        have : 1 ≤ n / 60 := by omega
        omega
      have hle : (-(n : Int) ≤ -60) := by omega
      rw [if_pos hz, appendInt_two _ hn, if_pos hle, hh]
    · have hz : ¬ (-((n / 60 : Nat) : Int) < 0) := by
        have : n / 60 = 0 := by omega
        omega
      have hle : ¬ (-(n : Int) ≤ -60) := by omega
      have hq : n / 60 = 0 := by omega
      have h36 : n / 3600 = 0 := by omega
      rw [if_neg hz, if_neg hle, hq, h36]
      rfl

theorem timeFormat_valid (t : Time) (hv : ValidReading t) :
    timeFormat t =
      [digitChar (t.year.natAbs / 1000), digitChar (t.year.natAbs / 100 % 10),
       digitChar (t.year.natAbs / 10 % 10), digitChar (t.year.natAbs % 10), '-',
       digitChar (t.month / 10), digitChar (t.month % 10), '-',
       digitChar (t.day / 10), digitChar (t.day % 10), '_',
       digitChar (t.hour / 10), digitChar (t.hour % 10),
       digitChar (t.minute / 10), digitChar (t.minute % 10),
       digitChar (t.second / 10), digitChar (t.second % 10)] ++ formatZone t.offset := by
  obtain ⟨hy0, hy1, _, hm, _, hd, hh, hmi, hs, _, _⟩ := hv
  simp only [timeFormat, layoutChunks, List.foldr_cons, List.foldr_nil, formatChunk]
  rw [appendInt_four t.year hy0 hy1, appendInt_two t.month (by omega),
    appendInt_two t.day (by omega), appendInt_two t.hour (by omega),
    appendInt_two t.minute (by omega), appendInt_two t.second (by omega)]
  simp

theorem defaultOutputAt_valid (t : Time) (hv : ValidReading t) :
    defaultOutputAt t =
      [Char.ofNat (48 + t.year.natAbs / 1000), Char.ofNat (48 + t.year.natAbs / 100 % 10),
       Char.ofNat (48 + t.year.natAbs / 10 % 10), Char.ofNat (48 + t.year.natAbs % 10), '-',
       Char.ofNat (48 + t.month / 10), Char.ofNat (48 + t.month % 10), '-',
       Char.ofNat (48 + t.day / 10), Char.ofNat (48 + t.day % 10), '_',
       Char.ofNat (48 + t.hour / 10), Char.ofNat (48 + t.hour % 10),
       Char.ofNat (48 + t.minute / 10), Char.ofNat (48 + t.minute % 10),
       Char.ofNat (48 + t.second / 10), Char.ofNat (48 + t.second % 10)]
      ++ (if t.offset = 0 then ['Z']
          else [if t.offset ≤ -60 then '-' else '+',
                Char.ofNat (48 + t.offset.natAbs / 3600 / 10),
                Char.ofNat (48 + t.offset.natAbs / 3600 % 10)])
      ++ ['.', 'p', 'n', 'g'] := by
  have ho1 : -360000 < t.offset := by
    have := hv.2.2.2.2.2.2.2.2.2.1
    omega
  have ho2 : t.offset < 360000 := by
    have := hv.2.2.2.2.2.2.2.2.2.2
    omega
  rw [defaultOutputAt, timeFormat_valid t hv]
  by_cases h0 : t.offset = 0
  · rw [if_pos h0, h0]
    rfl
  · rw [if_neg h0, formatZone_nonzero t.offset h0 ho1 ho2]
    rfl

/-! ## Structure of a run -/

theorem main_of_empty (env : Env) (flags : Flags)
    (hc : trimSpace (flags.content.getD []) = []) :
    main env flags = Run.mk 2 [Event.errMissingContent, Event.usageText] [] := by
  unfold main
  simp only [hc, if_true]

theorem main_of_content (env : Env) (flags : Flags)
    (hc : trimSpace (flags.content.getD []) ≠ []) :
    main env flags =
      match env.writeFile (writeCallOf env flags).content (writeCallOf env flags).level
          (writeCallOf env flags).size (writeCallOf env flags).path with
      | WriteResult.panicked value =>
        Run.mk 1 [Event.infoStart (flags.quality.getD defaultQuality)
            (byteLen (trimSpace (flags.content.getD []))) (resolvedOutput env flags)
            (flags.size.getD defaultSize), Event.errPanicRecovered value]
          [writeCallOf env flags]
      | WriteResult.failed err =>
        Run.mk 1 [Event.infoStart (flags.quality.getD defaultQuality)
            (byteLen (trimSpace (flags.content.getD []))) (resolvedOutput env flags)
            (flags.size.getD defaultSize), Event.errWrite err] [writeCallOf env flags]
      | WriteResult.ok =>
        Run.mk 0 [Event.infoStart (flags.quality.getD defaultQuality)
            (byteLen (trimSpace (flags.content.getD []))) (resolvedOutput env flags)
            (flags.size.getD defaultSize),
          Event.infoDone (resolvedOutput env flags) (trimSpace (flags.content.getD []))]
          [writeCallOf env flags] := by
  unfold main
  simp only [writeCallOf, resolvedOutput, hc, if_false]
  split <;> simp_all

theorem main_calls_of_content (env : Env) (flags : Flags)
    (hc : trimSpace (flags.content.getD []) ≠ []) :
    (main env flags).calls = [writeCallOf env flags] := by
  rw [main_of_content env flags hc]
  split <;> rfl

theorem main_calls_subset (env : Env) (flags : Flags) :
    (main env flags).calls = [] ∨
      (trimSpace (flags.content.getD []) ≠ []
        ∧ (main env flags).calls = [writeCallOf env flags]) := by
  by_cases hc : trimSpace (flags.content.getD []) = []
  · left
    rw [main_of_empty env flags hc]
  · right
    exact ⟨hc, main_calls_of_content env flags hc⟩

theorem main_exit_of_content (env : Env) (flags : Flags)
    (hc : trimSpace (flags.content.getD []) ≠ []) :
    ((main env flags).exit = 0 ↔
        env.writeFile (writeCallOf env flags).content (writeCallOf env flags).level
          (writeCallOf env flags).size (writeCallOf env flags).path = WriteResult.ok)
    ∧ ((main env flags).exit = 1 ↔
        (∃ err, env.writeFile (writeCallOf env flags).content (writeCallOf env flags).level
          (writeCallOf env flags).size (writeCallOf env flags).path = WriteResult.failed err)
        ∨ (∃ value, env.writeFile (writeCallOf env flags).content
          (writeCallOf env flags).level (writeCallOf env flags).size
          (writeCallOf env flags).path = WriteResult.panicked value))
    ∧ (main env flags).exit ≠ 2 := by
  rw [main_of_content env flags hc]
  cases hw : env.writeFile (writeCallOf env flags).content (writeCallOf env flags).level
      (writeCallOf env flags).size (writeCallOf env flags).path <;> simp

theorem defaultOutputAt_trim_ne_nil (t : Time) : trimSpace (defaultOutputAt t) ≠ [] := by
  intro h
  have hall := (trimSpace_eq_nil_iff _).mp h
  have hg : 'g' ∈ defaultOutputAt t := by
    unfold defaultOutputAt
    exact List.mem_append_right _ (by decide)
  have := hall 'g' hg
  revert this
  decide

theorem defaultOutputAt_ne_nil (t : Time) : defaultOutputAt t ≠ [] := by
  intro h0
  have := defaultOutputAt_trim_ne_nil t
  rw [h0] at this
  exact this rfl

theorem resolvedOutput_ne_nil (env : Env) (flags : Flags) : resolvedOutput env flags ≠ [] := by
  unfold resolvedOutput
  simp only
  split_ifs with h
  · exact defaultOutputAt_ne_nil env.clockResolve
  · exact h

/-! ## Claims about `main` -/

/-- C4: when `-content` is absent, empty or all white space, the run ends with exit
status 2 and `qrcode.WriteFile` is never invoked, whatever the other flags are; the
error event and the usage text are what the run emits. -/
theorem main_missing_content (env : Env) (flags : Flags)
    (h : flags.content = none ∨ ∃ c, flags.content = some c ∧ AllSpace c) :
    (main env flags).exit = 2 ∧ (main env flags).calls = []
      ∧ (main env flags).events = [Event.errMissingContent, Event.usageText] := by
  have hnil : trimSpace (flags.content.getD []) = [] := by
    rcases h with h | ⟨c, h, hc⟩
    · rw [h]; rfl
    · rw [h]; exact (trimSpace_eq_nil_iff c).mpr hc
  rw [main_of_empty env flags hnil]
  exact ⟨rfl, rfl, rfl⟩

/-- C4, at concrete inputs: no `-content` flag, and `-content="   "` together with
`-quality=low -output=a.png -size=256`. -/
theorem main_missing_content_witness :
    (main quietEnv (Flags.mk none none none none)).exit = 2
    ∧ (main quietEnv (Flags.mk none none none none)).calls = []
    ∧ (main quietEnv (Flags.mk (some "low".toList) (some "   ".toList)
        (some "a.png".toList) (some 256))).exit = 2
    ∧ (main quietEnv (Flags.mk (some "low".toList) (some "   ".toList)
        (some "a.png".toList) (some 256))).calls = [] :=
  ⟨(main_missing_content quietEnv (Flags.mk none none none none) (Or.inl rfl)).1,
   (main_missing_content quietEnv (Flags.mk none none none none) (Or.inl rfl)).2.1,
   (main_missing_content quietEnv (Flags.mk (some "low".toList) (some "   ".toList)
      (some "a.png".toList) (some 256)) (Or.inr ⟨"   ".toList, rfl, by decide⟩)).1,
   (main_missing_content quietEnv (Flags.mk (some "low".toList) (some "   ".toList)
      (some "a.png".toList) (some 256)) (Or.inr ⟨"   ".toList, rfl, by decide⟩)).2.1⟩

/-- C6: in every run with non-empty trimmed content, `qrcode.WriteFile` is invoked
once.  When the value of `-output` is empty after trimming, the path handed over is
the reading of the clock at line 62 in the default layout followed by `.png`, which
is not empty; for a civil reading it is the reading's year, month, day, hour, minute
and second as `YYYY-MM-DD_HHMMSS`, the zone token, and `.png`.  When the value is not
empty after trimming, the path is the trimmed value. -/
theorem main_output_path (env : Env) (flags : Flags) (o : GoString)
    (hc : trimSpace (flags.content.getD []) ≠ []) (ho : flags.output = some o) :
    ∃ c, (main env flags).calls = [c]
      ∧ (trimSpace o = [] →
          c.path = timeFormat env.clockResolve ++ ".png".toList ∧ c.path ≠ []
          ∧ (ValidReading env.clockResolve →
              c.path =
                [Char.ofNat (48 + env.clockResolve.year.natAbs / 1000),
                 Char.ofNat (48 + env.clockResolve.year.natAbs / 100 % 10),
                 Char.ofNat (48 + env.clockResolve.year.natAbs / 10 % 10),
                 Char.ofNat (48 + env.clockResolve.year.natAbs % 10), '-',
                 Char.ofNat (48 + env.clockResolve.month / 10),
                 Char.ofNat (48 + env.clockResolve.month % 10), '-',
                 Char.ofNat (48 + env.clockResolve.day / 10),
                 Char.ofNat (48 + env.clockResolve.day % 10), '_',
                 Char.ofNat (48 + env.clockResolve.hour / 10),
                 Char.ofNat (48 + env.clockResolve.hour % 10),
                 Char.ofNat (48 + env.clockResolve.minute / 10),
                 Char.ofNat (48 + env.clockResolve.minute % 10),
                 Char.ofNat (48 + env.clockResolve.second / 10),
                 Char.ofNat (48 + env.clockResolve.second % 10)]
                ++ (if env.clockResolve.offset = 0 then ['Z']
                    else [if env.clockResolve.offset ≤ -60 then '-' else '+',
                          Char.ofNat (48 + env.clockResolve.offset.natAbs / 3600 / 10),
                          Char.ofNat (48 + env.clockResolve.offset.natAbs / 3600 % 10)])
                ++ ['.', 'p', 'n', 'g']))
      ∧ (trimSpace o ≠ [] → c.path = trimSpace o) := by
  refine ⟨writeCallOf env flags, main_calls_of_content env flags hc, ?_, ?_⟩
  · intro hnil
    have hp : (writeCallOf env flags).path = defaultOutputAt env.clockResolve := by
      simp [writeCallOf, resolvedOutput, ho, hnil]
    refine ⟨hp, ?_, ?_⟩
    · rw [hp]
      exact defaultOutputAt_ne_nil env.clockResolve
    · intro hv
      rw [hp]
      exact defaultOutputAt_valid env.clockResolve hv
  · intro hne
    simp [writeCallOf, resolvedOutput, ho, hne]

/-- C6, at concrete inputs: `-output="  "` yields the timestamped name of the second
clock reading (also when the encoder then panics), `-output=" a.png "` yields
`a.png`. -/
theorem main_output_path_witness :
    (∃ c, (main quietEnv (Flags.mk none (some "x".toList) (some "  ".toList) none)).calls = [c]
      ∧ c.path = "2024-01-02_150405+05.png".toList)
    ∧ (∃ c, (main hugeSizePanicEnv (Flags.mk none (some "x".toList) (some "  ".toList)
        (some 9223372036854775807))).calls = [c]
      ∧ c.path = "2024-01-02_150405+05.png".toList)
    ∧ (∃ c, (main quietEnv (Flags.mk none (some "x".toList) (some " a.png ".toList)
        none)).calls = [c] ∧ c.path = "a.png".toList) :=
  ⟨(main_output_path quietEnv (Flags.mk none (some "x".toList) (some "  ".toList) none)
      "  ".toList (by decide) rfl).imp
      (fun _ h => ⟨h.1, ((h.2.1 (by decide)).2.2 (by decide)).trans (by decide)⟩),
   (main_output_path hugeSizePanicEnv (Flags.mk none (some "x".toList) (some "  ".toList)
      (some 9223372036854775807)) "  ".toList (by decide) rfl).imp
      (fun _ h => ⟨h.1, ((h.2.1 (by decide)).2.2 (by decide)).trans (by decide)⟩),
   (main_output_path quietEnv (Flags.mk none (some "x".toList) (some " a.png ".toList) none)
      " a.png ".toList (by decide) rfl).imp
      (fun _ h => ⟨h.1, (h.2.2 (by decide)).trans (by decide)⟩)⟩

/-- C8: in every run, whatever the flags, the clock readings and the encoder, each
invocation of `qrcode.WriteFile` has a content argument that is not empty and neither
starts nor ends with white space, and an output path that is not empty. -/
theorem main_call_arguments (env : Env) (flags : Flags) (c : WriteCall)
    (hc : c ∈ (main env flags).calls) :
    c.content ≠ []
      ∧ (∀ r, c.content.head? = some r → isSpace r = false)
      ∧ (∀ r, c.content.getLast? = some r → isSpace r = false)
      ∧ c.path ≠ [] := by
  rcases main_calls_subset env flags with h | ⟨hne, h⟩
  · rw [h] at hc
    simp at hc
  · rw [h] at hc
    have hcall : c = writeCallOf env flags := by simpa using hc
    subst hcall
    exact ⟨hne, fun r hr => trimSpace_head_not_space _ r hr,
      fun r hr => trimSpace_last_not_space _ r hr, resolvedOutput_ne_nil env flags⟩

/-- C8, at a concrete input: `-content="  hi there\t" -output="  "` reaches the
encoder as content `hi there` and a non-empty path. -/
theorem main_call_arguments_witness :
    WriteCall.mk "hi there".toList RecoveryLevel.Highest 1024
        "2024-01-02_150405+05.png".toList
      ∈ (main quietEnv
          (Flags.mk none (some "  hi there\t".toList) (some "  ".toList) none)).calls
    ∧ (WriteCall.mk "hi there".toList RecoveryLevel.Highest 1024
        "2024-01-02_150405+05.png".toList).content ≠ []
    ∧ (WriteCall.mk "hi there".toList RecoveryLevel.Highest 1024
        "2024-01-02_150405+05.png".toList).path ≠ [] :=
  ⟨by decide,
   (main_call_arguments quietEnv
      (Flags.mk none (some "  hi there\t".toList) (some "  ".toList) none)
      (WriteCall.mk "hi there".toList RecoveryLevel.Highest 1024
        "2024-01-02_150405+05.png".toList) (by decide)).1,
   (main_call_arguments quietEnv
      (Flags.mk none (some "  hi there\t".toList) (some "  ".toList) none)
      (WriteCall.mk "hi there".toList RecoveryLevel.Highest 1024
        "2024-01-02_150405+05.png".toList) (by decide)).2.2.2⟩

/-- C10: in every run with non-empty trimmed content, `qrcode.WriteFile` is invoked
once, with the level `parseQuality` gives for the value of `-quality` (for the default
`"highest"` when the flag is absent) and with the value of `-size` as given, zero,
negative and huge values included (1024 when the flag is absent).  With
`-quality=bogus` the level is `Highest`, and with `-content=x` as well a succeeding
encoder gives exit status 0. -/
theorem main_level_and_size (env : Env) (flags : Flags)
    (hc : trimSpace (flags.content.getD []) ≠ []) :
    ∃ c, (main env flags).calls = [c]
      ∧ (∀ q, flags.quality = some q → c.level = parseQuality env.lowerTable q)
      ∧ (flags.quality = none → c.level = parseQuality env.lowerTable "highest".toList)
      ∧ (∀ n, flags.size = some n → c.size = n)
      ∧ (flags.size = none → c.size = 1024)
      ∧ (flags.quality = some "bogus".toList → c.level = RecoveryLevel.Highest)
      ∧ (flags.quality = some "bogus".toList → flags.content = some "x".toList →
          env.writeFile c.content c.level c.size c.path = WriteResult.ok →
          c.content = "x".toList ∧ (main env flags).exit = 0) := by
  refine ⟨writeCallOf env flags, main_calls_of_content env flags hc, ?_, ?_, ?_, ?_, ?_, ?_⟩
  · intro q hq
    simp [writeCallOf, hq]
  · intro hq
    simp [writeCallOf, hq, defaultQuality]
  · intro n hn
    simp [writeCallOf, hn]
  · intro hn
    simp [writeCallOf, hn, defaultSize]
  · intro hq
    simp only [writeCallOf, hq, Option.getD_some]
    rfl
  · intro _ hx hw
    refine ⟨?_, ?_⟩
    · simp only [writeCallOf, hx, Option.getD_some]
      decide
    · exact (main_exit_of_content env flags hc).1.mpr hw

/-- C10, at concrete inputs: `-quality=bogus -content=x -size=-5` calls the encoder
once with level `Highest` and size `-5` and exits 0 when the encoder succeeds;
`-content=x -size=9223372036854775807` hands that size to an encoder that panics on
it. -/
theorem main_level_and_size_witness :
    (∃ c, (main quietEnv (Flags.mk (some "bogus".toList) (some "x".toList) none
        (some (-5)))).calls = [c]
      ∧ c.level = RecoveryLevel.Highest ∧ c.size = -5
      ∧ (main quietEnv (Flags.mk (some "bogus".toList) (some "x".toList) none
        (some (-5)))).exit = 0)
    ∧ (∃ c, (main hugeSizePanicEnv (Flags.mk none (some "x".toList) none
        (some 9223372036854775807))).calls = [c]
      ∧ c.level = RecoveryLevel.Highest ∧ c.size = 9223372036854775807) :=
  ⟨(main_level_and_size quietEnv
      (Flags.mk (some "bogus".toList) (some "x".toList) none (some (-5))) (by decide)).imp
      (fun _ h => ⟨h.1, h.2.2.2.2.2.1 rfl, h.2.2.2.1 (-5) rfl,
        (h.2.2.2.2.2.2 rfl rfl rfl).2⟩),
   (main_level_and_size hugeSizePanicEnv
      (Flags.mk none (some "x".toList) none (some 9223372036854775807)) (by decide)).imp
      (fun _ h => ⟨h.1, (h.2.2.1 rfl).trans (by decide),
        h.2.2.2.1 9223372036854775807 rfl⟩)⟩

/-- C9: in every run, a panic raised inside `qrcode.WriteFile`, the one call of
`main` that can raise one, is intercepted by the deferred function of lines 67-72:
the run emits the start event and then the recovery event carrying the panic value
(and no other recovery event), and the process ends with exit status 1. -/
theorem main_fault_intercepted (env : Env) (flags : Flags) (c : WriteCall)
    (value : GoString) (hc : c ∈ (main env flags).calls)
    (hw : env.writeFile c.content c.level c.size c.path = WriteResult.panicked value) :
    (main env flags).exit = 1
      ∧ (main env flags).events.getLast? = some (Event.errPanicRecovered value)
      ∧ (main env flags).events.length = 2
      ∧ (∀ other, Event.errPanicRecovered other ∈ (main env flags).events → other = value) := by
  rcases main_calls_subset env flags with h | ⟨hne, h⟩
  · rw [h] at hc
    simp at hc
  · rw [h] at hc
    have hcall : c = writeCallOf env flags := by simpa using hc
    subst hcall
    rw [main_of_content env flags hne, hw]
    simp

/-- C9, at a concrete input: with `-content=x -size=9223372036854775807` the encoder
panics, and the run ends with the recovery event and exit status 1. -/
theorem main_fault_intercepted_witness :
    (main hugeSizePanicEnv (Flags.mk none (some "x".toList) none
        (some 9223372036854775807))).exit = 1
    ∧ (main hugeSizePanicEnv (Flags.mk none (some "x".toList) none
        (some 9223372036854775807))).events.getLast?
        = some (Event.errPanicRecovered "len out of range".toList) :=
  ⟨(main_fault_intercepted hugeSizePanicEnv
      (Flags.mk none (some "x".toList) none (some 9223372036854775807))
      (WriteCall.mk "x".toList RecoveryLevel.Highest 9223372036854775807
        "2024-01-02_150405Z.png".toList)
      "len out of range".toList (by decide) (by decide)).1,
   (main_fault_intercepted hugeSizePanicEnv
      (Flags.mk none (some "x".toList) none (some 9223372036854775807))
      (WriteCall.mk "x".toList RecoveryLevel.Highest 9223372036854775807
        "2024-01-02_150405Z.png".toList)
      "len out of range".toList (by decide) (by decide)).2.1⟩

/-! ## Claims about the default file name -/

theorem matchesSlots_stamp (t : Time) (hv : ValidReading t) (slots : List Slot)
    (rest : GoString) :
    matchesSlots (stampSlots ++ slots)
      ([digitChar (t.year.natAbs / 1000), digitChar (t.year.natAbs / 100 % 10),
       digitChar (t.year.natAbs / 10 % 10), digitChar (t.year.natAbs % 10), '-',
       digitChar (t.month / 10), digitChar (t.month % 10), '-',
       digitChar (t.day / 10), digitChar (t.day % 10), '_',
       digitChar (t.hour / 10), digitChar (t.hour % 10),
       digitChar (t.minute / 10), digitChar (t.minute % 10),
       digitChar (t.second / 10), digitChar (t.second % 10)] ++ rest)
      = matchesSlots slots rest := by
  obtain ⟨hy0, hy1, _, hm, _, hd, hh, hmi, hs, _, _⟩ := hv
  have d1 := isDigit_digitChar (t.year.natAbs / 1000) (by omega)
  have d2 := isDigit_digitChar (t.year.natAbs / 100 % 10) (by omega)
  have d3 := isDigit_digitChar (t.year.natAbs / 10 % 10) (by omega)
  have d4 := isDigit_digitChar (t.year.natAbs % 10) (by omega)
  have d5 := isDigit_digitChar (t.month / 10) (by omega)
  have d6 := isDigit_digitChar (t.month % 10) (by omega)
  have d7 := isDigit_digitChar (t.day / 10) (by omega)
  have d8 := isDigit_digitChar (t.day % 10) (by omega)
  have d9 := isDigit_digitChar (t.hour / 10) (by omega)
  have d10 := isDigit_digitChar (t.hour % 10) (by omega)
  have d11 := isDigit_digitChar (t.minute / 10) (by omega)
  have d12 := isDigit_digitChar (t.minute % 10) (by omega)
  have d13 := isDigit_digitChar (t.second / 10) (by omega)
  have d14 := isDigit_digitChar (t.second % 10) (by omega)
  simp [stampSlots, matchesSlots, slotOk, d1, d2, d3, d4, d5, d6, d7, d8, d9, d10, d11, d12,
    d13, d14]

/-- C7, as stated, fails: at 2024-01-02 15:04:05 the default name is
`2024-01-02_150405Z.png` for UTC and `2024-01-02_150405+05.png` for UTC+05:30;
neither has the form `YYYY-MM-DD_HHMMSS±ZZZZ.png`. -/
theorem defaultOutput_not_spec_form :
    ValidReading sampleUTC
    ∧ defaultOutputAt sampleUTC = "2024-01-02_150405Z.png".toList
    ∧ matchesSlots specFormSlots (defaultOutputAt sampleUTC) = false
    ∧ ValidReading sampleIST
    ∧ defaultOutputAt sampleIST = "2024-01-02_150405+05.png".toList
    ∧ matchesSlots specFormSlots (defaultOutputAt sampleIST) = false := by
  decide

/-- C7, amended: for every civil clock reading the default file name is the
reading's year in four digits, `-`, its month in two digits, `-`, its day in two
digits, `_`, its hour, minute and second in two digits each, then `Z` when the UTC
offset is zero and otherwise the sign and the two-digit whole hours of the offset
(minutes are not printed; the sign is `-` from one minute west of UTC on), then
`.png`.  The name so has the form `YYYY-MM-DD_HHMMSSZ.png` or
`YYYY-MM-DD_HHMMSS±hh.png`. -/
theorem defaultOutput_form (t : Time) (hv : ValidReading t) :
    defaultOutputAt t =
        [Char.ofNat (48 + t.year.natAbs / 1000), Char.ofNat (48 + t.year.natAbs / 100 % 10),
         Char.ofNat (48 + t.year.natAbs / 10 % 10), Char.ofNat (48 + t.year.natAbs % 10),
         '-', Char.ofNat (48 + t.month / 10), Char.ofNat (48 + t.month % 10),
         '-', Char.ofNat (48 + t.day / 10), Char.ofNat (48 + t.day % 10),
         '_', Char.ofNat (48 + t.hour / 10), Char.ofNat (48 + t.hour % 10),
         Char.ofNat (48 + t.minute / 10), Char.ofNat (48 + t.minute % 10),
         Char.ofNat (48 + t.second / 10), Char.ofNat (48 + t.second % 10)]
        ++ (if t.offset = 0 then ['Z']
            else [if t.offset ≤ -60 then '-' else '+',
                  Char.ofNat (48 + t.offset.natAbs / 3600 / 10),
                  Char.ofNat (48 + t.offset.natAbs / 3600 % 10)])
        ++ ['.', 'p', 'n', 'g']
    ∧ (t.offset = 0 → matchesSlots utcFormSlots (defaultOutputAt t) = true)
    ∧ (t.offset ≠ 0 → matchesSlots hoursFormSlots (defaultOutputAt t) = true)
    ∧ (t.offset ≠ 0 → (defaultOutputAt t).drop 17 =
        [if t.offset ≤ -60 then '-' else '+', digitChar (t.offset.natAbs / 3600 / 10),
         digitChar (t.offset.natAbs / 3600 % 10)] ++ ".png".toList) := by
  have hfmt := timeFormat_valid t hv
  have ho1 : -360000 < t.offset := by
    have := hv.2.2.2.2.2.2.2.2.2.1
    omega
  have ho2 : t.offset < 360000 := by
    have := hv.2.2.2.2.2.2.2.2.2.2
    omega
  refine ⟨defaultOutputAt_valid t hv, ?_, ?_, ?_⟩
  · intro h0
    rw [defaultOutputAt, hfmt, h0, List.append_assoc, utcFormSlots, List.append_assoc,
      matchesSlots_stamp t hv]
    rfl
  · intro h0
    have hh : t.offset.natAbs / 3600 < 100 := by omega
    have d1 := isDigit_digitChar (t.offset.natAbs / 3600 / 10) (by omega)
    have d2 := isDigit_digitChar (t.offset.natAbs / 3600 % 10) (by omega)
    rw [defaultOutputAt, hfmt, formatZone_nonzero t.offset h0 ho1 ho2, List.append_assoc,
      hoursFormSlots, List.append_assoc, matchesSlots_stamp t hv]
    by_cases hs : t.offset ≤ -60
    · simp [hs, matchesSlots, slotOk, pngSlots, d1, d2]
    · simp [hs, matchesSlots, slotOk, pngSlots, d1, d2]
  · intro h0
    rw [defaultOutputAt, hfmt, formatZone_nonzero t.offset h0 ho1 ho2]
    rfl

/-- C7 amended, at concrete inputs: 2024-01-02 15:04:05 gives
`2024-01-02_150405Z.png` at UTC and `2024-01-02_150405+05.png` at UTC+05:30, and
1999-12-31 23:59:58 at UTC-03:30 gives `1999-12-31_235958-03.png`. -/
theorem defaultOutput_form_witness :
    defaultOutputAt sampleUTC = "2024-01-02_150405Z.png".toList
    ∧ defaultOutputAt (Time.mk 1999 12 31 23 59 58 (-12600))
        = "1999-12-31_235958-03.png".toList
    ∧ matchesSlots utcFormSlots (defaultOutputAt sampleUTC) = true
    ∧ matchesSlots hoursFormSlots (defaultOutputAt sampleIST) = true
    ∧ (defaultOutputAt sampleIST).drop 17 = "+05.png".toList :=
  ⟨(defaultOutput_form sampleUTC (by decide)).1.trans (by decide),
   (defaultOutput_form (Time.mk 1999 12 31 23 59 58 (-12600)) (by decide)).1.trans
      (by decide),
   (defaultOutput_form sampleUTC (by decide)).2.1 rfl,
   (defaultOutput_form sampleIST (by decide)).2.2.1 (by decide),
   ((defaultOutput_form sampleIST (by decide)).2.2.2 (by decide)).trans (by decide)⟩

end QRCode
